import Mathlib

/-!
Verification of the Load-s-Search indexing pipeline (src/loads_search).

Python strings are embedded as lists of characters (`Str`).  Pure string
manipulation (strip, lower, slicing, replace, join) is translated directly
from the Python source; filesystem and third-party-library effects are
embedded as explicit world/oracle values, with each `try/except` of the
source becoming a `match` on an `Except` outcome.
-/

namespace LoadsSearch

/-- Python strings as lists of characters. -/
abbrev Str := List Char

/-- Whitespace characters recognised by Python `str.strip()` (ASCII range). -/
def isPyWS (c : Char) : Bool :=
  c == ' ' || c == '\t' || c == '\n' || c == '\r' || c == '\x0b' || c == '\x0c'

/-- Embedding of Python `str.strip()`: drop leading and trailing whitespace. -/
def pyStrip (s : Str) : Str :=
  ((s.dropWhile isPyWS).reverse.dropWhile isPyWS).reverse

/-- Embedding of Python `str.lower()` (ASCII case folding). -/
def pyLower (s : Str) : Str := s.map Char.toLower

/-- Embedding of `s[:mc] if len(s) > mc else s`. -/
def pyTrunc (mc : Nat) (s : Str) : Str :=
  if s.length > mc then s.take mc else s

/-- Embedding of Python `sep.join(parts)`. -/
def sJoin (sep : Str) (parts : List Str) : Str := List.intercalate sep parts

/-- Decimal digit to character, as Python `str(int)` renders digits. -/
def digitChar (d : Nat) : Char := Char.ofNat (48 + d)

/-- Fuel-driven decimal printer (most significant digit first); with fuel
at least `n` it renders exactly the decimal digits of `n`. -/
def pyStrAux : Nat → Nat → Str
  | 0, _ => []
  | fuel + 1, n =>
    if n = 0 then [] else pyStrAux fuel (n / 10) ++ [digitChar (n % 10)]

/-- Embedding of Python `str(i)` for a non-negative integer `i`. -/
def pyStr (n : Nat) : Str :=
  if n = 0 then ['0'] else pyStrAux n n

/-- Numeric value of a digit character. -/
def charVal (c : Char) : Nat := c.toNat - 48

/-- Parse a digit string back to a number (left fold, most significant first). -/
def parseDigits (s : Str) : Nat := s.foldl (fun acc c => acc * 10 + charVal c) 0

/-- The segment of a string after its last colon (whole string if none). -/
def afterLastColon (s : Str) : Str :=
  (s.reverse.takeWhile (fun c => c ≠ ':')).reverse

/-- The sequence index encoded at the tail of a command document id. -/
def idSeq (s : Str) : Nat := parseDigits (afterLastColon s)

/- ## Crawler (crawler.py) -/

/-- Embedding of `INDEXABLE_EXTENSIONS` from crawler.py. -/
def INDEXABLE_EXTENSIONS : List Str := [
  ".txt".data, ".md".data, ".rst".data, ".tex".data, ".latex".data, ".org".data,
  ".adoc".data, ".asciidoc".data, ".docx".data, ".pdf".data,
  ".json".data, ".yml".data, ".yaml".data, ".toml".data, ".ini".data, ".cfg".data,
  ".conf".data, ".xml".data, ".csv".data,
  ".html".data, ".htm".data, ".xhtml".data, ".css".data, ".scss".data, ".sass".data,
  ".less".data,
  ".js".data, ".jsx".data, ".mjs".data, ".cjs".data, ".ts".data, ".tsx".data,
  ".mts".data, ".cts".data, ".vue".data,
  ".py".data, ".pyw".data, ".pyi".data,
  ".c".data, ".h".data, ".cpp".data, ".hpp".data, ".cc".data, ".cxx".data,
  ".java".data, ".kt".data, ".kts".data, ".rs".data,
  ".go".data, ".r".data, ".R".data, ".rb".data, ".php".data, ".swift".data,
  ".sql".data, ".sh".data, ".bash".data, ".zsh".data,
  ".ps1".data, ".bat".data, ".cmd".data, ".rq".data, ".sparql".data,
  ".log".data, ".diff".data, ".patch".data, ".svg".data, ".graphql".data, ".gql".data]

/-- Embedding of `LARGE_FILE_EXTENSIONS` from crawler.py. -/
def LARGE_FILE_EXTENSIONS : List Str := [".docx".data, ".pdf".data]

/-- Embedding of `LARGE_FILE_MAX_KB` from crawler.py. -/
def LARGE_FILE_MAX_KB : Nat := 10 * 1024

/-- Embedding of `pathlib.Path.suffix` on a final path component `name`:
the part from the last dot on, provided the dot is neither the first nor the
last character; otherwise the empty string. -/
def pySuffix (name : Str) : Str :=
  match name.reverse.findIdx? (fun c => c == '.') with
  | none => []
  | some j =>
    let i := name.length - 1 - j
    if 0 < i ∧ i < name.length - 1 then name.drop i else []

/-- One filesystem entry seen by `root.rglob("*")`, described relative to its
root: its path components below the root, whether it is a regular file,
whether `stat()` succeeds, and the size/mtime that `stat()` reports. -/
structure RawFile where
  parts : List Str
  isFile : Bool
  statOk : Bool
  size : Nat
  mtime : Int
deriving DecidableEq, Repr

/-- One configured root folder: its own absolute-path components, whether it
exists as a directory, and the entries `rglob` enumerates beneath it. -/
structure Folder where
  rootParts : List Str
  isDir : Bool
  files : List RawFile
deriving DecidableEq, Repr

/-- A record yielded by `crawl`: resolved absolute path (as components),
mtime and size from `stat()`. -/
structure FileRec where
  pathParts : List Str
  mtime : Int
  size : Nat
deriving DecidableEq, Repr

/-- Embedding of `{p.strip().lower() for p in exclude_patterns if p}`. -/
def excludeSet (patterns : List Str) : List Str :=
  (patterns.filter (fun p => !p.isEmpty)).map (fun p => pyLower (pyStrip p))

/-- Final path component of a raw file (`path.name`). -/
def fileName (f : RawFile) : Str := f.parts.getLastD []

/-- Embedding of `path.suffix.lower()` for a raw file. -/
def fileSuffix (f : RawFile) : Str := pyLower (pySuffix (fileName f))

/-- The dict yielded by `crawl` for an accepted file: resolved path, mtime,
size. -/
def mkRecord (fo : Folder) (f : RawFile) : FileRec :=
  { pathParts := fo.rootParts ++ f.parts, mtime := f.mtime, size := f.size }

/-- Per-entry decision of the `crawl` loop body (crawler.py lines 52-75):
skip non-files, non-indexable extensions, excluded path components, stat
failures and oversized files; otherwise yield the record. -/
def crawlFile (excl : List Str) (maxBytes : Nat) (fo : Folder) (f : RawFile) :
    Option FileRec :=
  if f.isFile = false then none
  else if fileSuffix f ∉ INDEXABLE_EXTENSIONS then none
  else if f.parts.any (fun part => decide (pyLower part ∈ excl)) then none
  else if f.statOk = false then none
  else
    let limit := if fileSuffix f ∈ LARGE_FILE_EXTENSIONS
      then LARGE_FILE_MAX_KB * 1024 else maxBytes
    if f.size > limit then none
    else some (mkRecord fo f)

/-- Embedding of `crawl(folders, exclude_patterns, max_file_size_kb)`:
non-directory roots are skipped; each root contributes the records its
entries pass `crawlFile` with. -/
def crawl (folders : List Folder) (patterns : List Str) (maxKb : Nat) :
    List FileRec :=
  let maxBytes := maxKb * 1024
  let excl := excludeSet patterns
  folders.flatMap (fun fo =>
    if fo.isDir = false then []
    else fo.files.filterMap (crawlFile excl maxBytes fo))

/- ## Metadata store (metadata.py) -/

/-- A file entry as passed to `build_index` / stored in file_metadata.json:
the result of `e.get("path") or ""` is embedded as the `path` field (a
missing path is the empty string). -/
structure MetaEntry where
  path : Str
  mtime : Int
  size : Nat
deriving DecidableEq, Repr

/-- Normalisation applied by `save_metadata` (path as str, mtime as float,
size as int); on already well-typed entries it preserves every field. -/
def normalizeEntry (e : MetaEntry) : MetaEntry :=
  { path := e.path, mtime := e.mtime, size := e.size }

/-- Separator used when flattening resolved path components to the single
path string carried by a metadata entry. -/
def joinPath (parts : List Str) : Str := sJoin ['/'] parts

/-- Conversion of a crawl record to the dict given to `save_metadata` and
`build_index`. -/
def entryOfRec (r : FileRec) : MetaEntry :=
  { path := joinPath r.pathParts, mtime := r.mtime, size := r.size }

/- ## Activity logs (activity_logger.py) -/

/-- One entry of a `device_*.json` activity log
(`{type, timestamp, command, cwd}`); a missing string field is embedded as
the empty string. -/
structure LogEntry where
  type : Str
  timestamp : Str
  command : Str
  cwd : Str
deriving DecidableEq, Repr

/-- Embedding of `load_commands_from_logs`: all log entries whose `type`
field is `"command"`, aggregated across the persisted log files. -/
def load_commands_from_logs (logEntries : List LogEntry) : List LogEntry :=
  logEntries.filter (fun e => e.type = "command".data)

/-- Embedding of the zsh-prefix normalisation of `sync_terminal_history`
(lines 80-84): a line of the form `: <ts>:<n>;command` is replaced by the
stripped text after the first semicolon. -/
def zshFix (cmd : Str) : Str :=
  if cmd.take 2 = ": ".data ∧ ':' ∈ cmd.drop 2 then
    match cmd.findIdx? (fun c => c == ';') with
    | some idx => pyStrip (cmd.drop (idx + 1))
    | none => cmd
  else cmd

/-- Per-line normalisation of `sync_terminal_history`: strip, skip empty or
over-long lines, then apply the zsh-prefix fix. -/
def lineNorm (line : Str) : Option Str :=
  let cmd := pyStrip line
  if cmd = [] ∨ cmd.length > 2000 then none
  else some (zshFix cmd)

/-- The dedup loop of `sync_terminal_history`: walk the history lines with
the evolving `existing` set (seeded from the current log, extended as new
commands are found) and collect the genuinely new command texts in order. -/
def collectNew (existing : List Str) : List Str → List Str
  | [] => []
  | l :: ls =>
    match lineNorm l with
    | none => collectNew existing ls
    | some cmd =>
      if cmd ∈ existing then collectNew existing ls
      else cmd :: collectNew (cmd :: existing) ls

/- ## Index builder (indexer.py) -/

/-- One document written to the Whoosh index: the stored `path` field (the
unique id), the `result_type` keyword and the searchable `content`. -/
structure Doc where
  id : Str
  result_type : Str
  content : Str
deriving DecidableEq, Repr

/-- File-document loop of `build_index` (lines 183-192): entries with an
empty path are skipped; every other entry is written with id = its path and
content = the extracted text, or a single-space placeholder when extraction
produced the empty string. -/
def fileDocs (extract : Str → Str) (entries : List MetaEntry) : List Doc :=
  entries.filterMap (fun e =>
    if e.path = [] then none
    else some
      { id := e.path
        result_type := "file".data
        content := if extract e.path = [] then " ".data else extract e.path })

/-- Command-document decision of `build_index` (lines 196-206) for the entry
at zero-based position `i`: blank commands are skipped; the timestamp falls
back to `str(i)` when missing or empty; the id is
`command:<timestamp>:<i>`. -/
def cmdDoc (i : Nat) (c : LogEntry) : Option Doc :=
  let cmd := pyStrip c.command
  if cmd = [] then none
  else
    let ts := if c.timestamp = [] then pyStr i else c.timestamp
    some
      { id := "command:".data ++ ts ++ ":".data ++ pyStr i
        result_type := "command".data
        content := cmd }

/-- All command documents of one build, in enumeration order. -/
def cmdDocs (cmds : List LogEntry) : List Doc :=
  cmds.enum.filterMap (fun p => cmdDoc p.1 p.2)

/-- Embedding of `build_index(entries, command_entries)`: the documents
written to the freshly recreated index, file documents first, then command
documents.  The count the Python function returns is the length of this
list (per-document Whoosh write failures are IO-level and modelled as not
occurring). -/
def build_index (extract : Str → Str) (entries : List MetaEntry)
    (cmds : List LogEntry) : List Doc :=
  fileDocs extract entries ++ cmdDocs cmds

/- ## Whole-pipeline state (full_index / rebuild_index) -/

/-- Configuration fields consumed by `full_index`. -/
structure Config where
  excludePatterns : List Str
  maxFileSizeKb : Nat
  logTerminalHistory : Bool

/-- External state one indexing pass reads and writes: the filesystem under
the configured roots, the shell-history lines, the current device-day
activity log (the one `sync_terminal_history` appends to), the other
persisted activity logs, the persisted metadata snapshot, the content
extractor, and the timestamp/cwd the sync step stamps on new entries. -/
structure SysWorld where
  folders : List Folder
  history : List Str
  todayLog : List LogEntry
  otherLogs : List LogEntry
  metadata : List MetaEntry
  extract : Str → Str
  nowIso : Str
  curDir : Str

/-- New log entries one `sync_terminal_history` call appends: the new
command texts found by the dedup loop, stamped with the current ISO
timestamp and working directory. -/
def syncNewEntries (w : SysWorld) : List LogEntry :=
  (collectNew (w.todayLog.map (fun e => pyStrip e.command)) w.history).map
    (fun cmd =>
      { type := "command".data, timestamp := w.nowIso, command := cmd,
        cwd := w.curDir })

/-- Embedding of `sync_terminal_history`: append the new entries to the
current log (appending nothing when no new command is found). -/
def sync_terminal_history (w : SysWorld) : SysWorld :=
  { w with todayLog := w.todayLog ++ syncNewEntries w }

/-- All command entries `load_commands_from_logs` aggregates for this world
(a fixed traversal order of the log files is assumed). -/
def worldCommands (w : SysWorld) : List LogEntry :=
  load_commands_from_logs (w.otherLogs ++ w.todayLog)

/-- Embedding of `full_index(config)`: sync terminal history when enabled,
crawl the configured folders, persist the (normalised) metadata snapshot,
and build the index from the fresh file entries plus the logged commands.
Returns the built document list (whose length is the returned count) and
the updated external state. -/
def full_index (w : SysWorld) (cfg : Config) : List Doc × SysWorld :=
  let w1 := if cfg.logTerminalHistory then sync_terminal_history w else w
  let entries := (crawl w1.folders cfg.excludePatterns cfg.maxFileSizeKb).map
    entryOfRec
  let w2 := { w1 with metadata := entries.map normalizeEntry }
  (build_index w2.extract entries (worldCommands w2), w2)

/-- Embedding of `rebuild_index()`: build the index from the persisted
metadata snapshot, with no activity refresh. -/
def rebuild_index (w : SysWorld) : List Doc :=
  build_index w.extract w.metadata (worldCommands w)

/- ## Content extractor (_read_content, indexer.py lines 24-165) -/

/-- Outcomes of the effectful steps of one `_read_content` call for one
path.  Each `Except` value records whether the corresponding Python
operation raised; string payloads are the values the libraries returned. -/
structure ExtractWorld where
  pathExists : Bool
  suffix : Str
  plumberImport : Bool
  plumberExc : Bool
  plumberTimeout : Bool
  plumberOpen : Except Str (List (Except Unit Str))
  pypdfReader : Except Unit (List (Except Unit Str))
  docxOutcome : Except Unit (List Str × List (List Str))
  statSize : Except Unit Nat
  readOk : Bool
  chardetImport : Bool
  chardetConfHigh : Bool
  chardetEncoding : Option Str
  decode : Str → Except Unit Str
  decodeReplace : Str

/-- Page-collection loop of the pdfplumber worker (lines 41-58): keep pages
whose extracted text is non-blank, stopping once the joined text exceeds
the character budget; page-level extraction errors are skipped. -/
def plumberCollect (mc : Nat) : List (Except Unit Str) → List Str → List Str
  | [], acc => acc
  | p :: ps, acc =>
    match p with
    | .error _ => plumberCollect mc ps acc
    | .ok t =>
      if t ≠ [] ∧ pyStrip t ≠ [] then
        let acc2 := acc ++ [t]
        if (sJoin ['\n'] acc2).length > mc then acc2
        else plumberCollect mc ps acc2
      else plumberCollect mc ps acc

/-- The character-substitution chain applied to PyPDF2 page text
(lines 103-105); every step replaces the placeholder character `'■'`, so
only the first has any effect. -/
def turkishFix (t : Str) : Str :=
  let rep := fun (s : Str) (a b : Char) => s.map (fun c => if c = a then b else c)
  let t := rep t '■' 'ş'
  let t := rep t '■' 'Ş'
  let t := rep t '■' 'ç'
  let t := rep t '■' 'Ç'
  let t := rep t '■' 'ğ'
  let t := rep t '■' 'Ğ'
  let t := rep t '■' 'ı'
  let t := rep t '■' 'İ'
  let t := rep t '■' 'ö'
  let t := rep t '■' 'Ö'
  let t := rep t '■' 'ü'
  let t := rep t '■' 'Ü'
  t

/-- Page-collection loop of the PyPDF2 fallback (lines 97-112). -/
def pypdfCollect (mc : Nat) : List (Except Unit Str) → List Str → List Str
  | [], acc => acc
  | p :: ps, acc =>
    match p with
    | .error _ => pypdfCollect mc ps acc
    | .ok t =>
      if t ≠ [] ∧ pyStrip t ≠ [] then
        let acc2 := acc ++ [turkishFix t]
        if (sJoin ['\n'] acc2).length > mc then acc2
        else pypdfCollect mc ps acc2
      else pypdfCollect mc ps acc

/-- PyPDF2 fallback (lines 90-116): any exception yields the empty string;
otherwise the first 50 pages are collected and the joined text truncated. -/
def pypdfFallback (w : ExtractWorld) (mc : Nat) : Str :=
  match w.pypdfReader with
  | .error _ => []
  | .ok pages => pyTrunc mc (sJoin ['\n'] (pypdfCollect mc (pages.take 50) []))

/-- PDF branch of `_read_content` (lines 32-116): pdfplumber under a
timeout, with the PyPDF2 fallback when pdfplumber is unavailable, raises,
or returns an empty result.  A timeout returns the empty string directly. -/
def pdfBranch (w : ExtractWorld) (mc : Nat) : Str :=
  if w.plumberImport ∧ ¬ w.plumberExc then
    if w.plumberTimeout then []
    else
      match w.plumberOpen with
      | .ok pages =>
        let r := sJoin ['\n'] (plumberCollect mc (pages.take 50) [])
        if r ≠ [] then pyTrunc mc r else pypdfFallback w mc
      | .error _ => pypdfFallback w mc
  else pypdfFallback w mc

/-- Word-document branch of `_read_content` (lines 119-130): paragraph
texts plus space-joined table-row cells, newline-joined and truncated; any
exception yields the empty string. -/
def docxBranch (w : ExtractWorld) (mc : Nat) : Str :=
  match w.docxOutcome with
  | .error _ => []
  | .ok pr =>
    let parts := pr.1 ++ pr.2.map (fun row => sJoin [' '] row)
    pyTrunc mc (sJoin ['\n'] parts)

/-- Encoding-fallback loop of the plain-text branch (lines 156-163): first
successful decode wins, otherwise the lossy utf-8 decode with replacement
(which never fails). -/
def tryEncodings (w : ExtractWorld) : List Str → Str
  | [] => w.decodeReplace
  | e :: es =>
    match w.decode e with
    | .ok s => s
    | .error _ => tryEncodings w es

/-- The encoding list tried by the plain-text branch (line 154). -/
def encodingList : List Str :=
  ["utf-8".data, "utf-8-sig".data, "windows-1254".data, "iso-8859-9".data,
   "iso-8859-1".data, "cp1252".data]

/-- Plain-text branch of `_read_content` (lines 133-165): size guard,
byte read, confidence-gated chardet detection, encoding-fallback loop;
OSError and UnicodeDecodeError anywhere yield the empty string. -/
def textBranch (w : ExtractWorld) (mc : Nat) : Str :=
  match w.statSize with
  | .error _ => []
  | .ok size =>
    if size > mc * 2 then []
    else if w.readOk = false then []
    else
      let viaChardet : Option Str :=
        if w.chardetImport then
          if w.chardetConfHigh then
            match w.chardetEncoding with
            | some enc =>
              if enc = [] then none
              else
                match w.decode enc with
                | .ok s => some s
                | .error _ => none
            | none => none
          else none
        else none
      match viaChardet with
      | some s => s
      | none => tryEncodings w encodingList

/-- Embedding of `_read_content(path_str, max_chars)`: dispatch on the
lowered suffix after the existence check. -/
def _read_content (w : ExtractWorld) (mc : Nat) : Str :=
  if w.pathExists = false then []
  else
    let suffix := pyLower w.suffix
    if suffix = ".pdf".data then pdfBranch w mc
    else if suffix = ".docx".data then docxBranch w mc
    else textBranch w mc

/- ## Query engine (search_index, indexer.py lines 251-279) -/

/-- One Whoosh hit as the result-processing loop sees it: the stored
fields, each possibly absent. -/
structure Hit where
  path : Option Str
  result_type : Option Str
  content : Option Str
deriving DecidableEq, Repr

/-- One tuple returned by `search_index`:
`(path_or_id, snippet, result_type, copy_text)`. -/
structure SearchResult where
  path : Str
  snippet : Str
  result_type : Str
  copy_text : Option Str
deriving DecidableEq, Repr

/-- Outcomes of the effectful steps of one `search_index` call: whether
`get_index()` returns an open index, the parser outcome per query string,
and the ranked hits the Whoosh searcher returns. -/
structure SearchWorld where
  ixExists : Bool
  parse : Str → Except Unit Unit
  hits : List Hit

/-- Result-processing loop body of `search_index` (lines 270-278): default
the stored fields, build the snippet (first 200 characters, newlines to
spaces, stripped, truncation marker when the content is longer), and set
`copy_text` for command results only. -/
def formatHit (h : Hit) : SearchResult :=
  let path := h.path.getD []
  let rt0 := h.result_type.getD []
  let rt := if rt0 = [] then "file".data else rt0
  let content := h.content.getD []
  let snippet0 :=
    pyStrip ((content.take 200).map (fun c => if c = '\n' then ' ' else c))
  let snippet := if content.length > 200 then snippet0 ++ "...".data
    else snippet0
  { path := path, snippet := snippet, result_type := rt,
    copy_text := if rt = "command".data then some content else none }

/-- Embedding of `search_index(q, limit)`: strip the query, return the
empty list on a blank query, a missing index or a parse error; otherwise
format every hit the searcher returned. -/
def search_index (w : SearchWorld) (q : Str) : List SearchResult :=
  if pyStrip q = [] then []
  else if w.ixExists = false then []
  else
    match w.parse (pyStrip q) with
    | .error _ => []
    | .ok _ => w.hits.map formatHit

/- ## Concrete instances for evaluation -/

/-- Extractor that always returns the empty string. -/
def emptyExtract : Str → Str := fun _ => []

/-- Extraction world for a missing file with every effectful step failing. -/
def exFailWorld : ExtractWorld :=
  { pathExists := false, suffix := ".txt".data, plumberImport := false,
    plumberExc := false, plumberTimeout := false, plumberOpen := .error [],
    pypdfReader := .error (), docxOutcome := .error (), statSize := .error (),
    readOk := false, chardetImport := false, chardetConfHigh := false,
    chardetEncoding := none, decode := fun _ => .error (),
    decodeReplace := [] }

/-- Search hit with a short command content. -/
def okHit : Hit :=
  { path := some ("c1".data), result_type := some ("command".data),
    content := some ("ab\ncd".data) }

/-- Search world whose parser always fails. -/
def parseErrWorld : SearchWorld :=
  { ixExists := true, parse := fun _ => .error (), hits := [okHit] }

/-- Search world whose parser always succeeds and that returns `okHit`. -/
def okWorld : SearchWorld :=
  { ixExists := true, parse := fun _ => .ok (), hits := [okHit] }

/-- Stored content of 201 characters beginning with a space. -/
def snipContent : Str := ' ' :: List.replicate 200 'a'

/-- Hit carrying `snipContent`. -/
def snipHit : Hit :=
  { path := some ("f1".data), result_type := some ("file".data),
    content := some snipContent }

/-- Search world returning `snipHit`. -/
def snipWorld : SearchWorld :=
  { ixExists := true, parse := fun _ => .ok (), hits := [snipHit] }

/-- Two file entries with the same path. -/
def dupEntries : List MetaEntry :=
  [{ path := ['a'], mtime := 0, size := 0 },
   { path := ['a'], mtime := 0, size := 0 }]

/-- A file entry whose path has the form of a command document id. -/
def clashEntries : List MetaEntry :=
  [{ path := "command:0:0".data, mtime := 0, size := 0 }]

/-- One command entry whose generated id collides with `clashEntries`. -/
def clashCmds : List LogEntry :=
  [{ type := "command".data, timestamp := ['0'], command := ['x'], cwd := [] }]

/-- Two file entries with distinct paths. -/
def uEntries : List MetaEntry :=
  [{ path := ['a'], mtime := 0, size := 0 },
   { path := ['b'], mtime := 0, size := 0 }]

/-- Two command entries with the same (colliding) timestamp. -/
def uCmds : List LogEntry :=
  [{ type := "command".data, timestamp := ['t'], command := ['x'], cwd := [] },
   { type := "command".data, timestamp := ['t'], command := ['y'], cwd := [] }]

/-- Command entry with a non-blank command and an empty timestamp. -/
def noTsCmds : List LogEntry :=
  [{ type := "command".data, timestamp := [], command := "ls".data, cwd := [] }]

/-- Regular text file of 10 bytes. -/
def smallTxt : RawFile :=
  { parts := ["a.txt".data], isFile := true, statOk := true, size := 10,
    mtime := 0 }

/-- PDF file of 2000 bytes (over a 1 KB ordinary limit, under 10 MB). -/
def bigPdf : RawFile :=
  { parts := ["b.pdf".data], isFile := true, statOk := true, size := 2000,
    mtime := 0 }

/-- Folder holding `smallTxt` and `bigPdf`. -/
def homeFolder : Folder :=
  { rootParts := ["home".data], isDir := true, files := [smallTxt, bigPdf] }

/-- Text file directly under an excluded-looking root. -/
def exclFile : RawFile :=
  { parts := ["a.txt".data], isFile := true, statOk := true, size := 0,
    mtime := 0 }

/-- Root folder whose own name matches an exclude pattern. -/
def exclRoot : Folder :=
  { rootParts := ["node_modules".data], isDir := true, files := [exclFile] }

/- ## Helper lemmas -/

/-- The encoding-fallback loop lands on the lossy decode when every decode
attempt raises. -/
theorem tryEncodings_of_all_error (w : ExtractWorld)
    (h : ∀ e, w.decode e = .error ()) (l : List Str) :
    tryEncodings w l = w.decodeReplace := by
  induction l with
  | nil => rfl
  | cons e es ih => simp [tryEncodings, h e, ih]

/-- Stripping a string of whitespace characters yields the empty string. -/
theorem pyStrip_eq_nil_of_all_ws (q : Str) (h : ∀ c ∈ q, isPyWS c) :
    pyStrip q = [] := by
  unfold pyStrip
  have h1 : q.dropWhile isPyWS = [] := by
    rw [List.dropWhile_eq_nil_iff]
    intro c hc
    exact h c hc
  simp [h1]

/-- Unpacking of the file-document loop as a filter-then-map. -/
theorem fileDocs_eq_filter_map (extract : Str → Str)
    (entries : List MetaEntry) :
    fileDocs extract entries =
      (entries.filter (fun e => !e.path.isEmpty)).map (fun e =>
        { id := e.path, result_type := "file".data,
          content := if extract e.path = [] then " ".data
            else extract e.path }) := by
  induction entries with
  | nil => rfl
  | cons e es ih =>
    by_cases hp : e.path = []
    · simpa [fileDocs, List.filterMap_cons, List.filter_cons, hp] using ih
    · simpa [fileDocs, List.filterMap_cons, List.filter_cons, hp] using ih

/-- With enough fuel the decimal printer renders the reversed digit list. -/
theorem pyStrAux_eq_digits : ∀ fuel n, n ≤ fuel →
    pyStrAux fuel n = ((Nat.digits 10 n).map digitChar).reverse := by
  intro fuel
  induction fuel with
  | zero =>
    intro n hn
    interval_cases n
    simp [pyStrAux]
  | succ fuel ih =>
    intro n hn
    by_cases h0 : n = 0
    · simp [pyStrAux, h0]
    · have hdiv : n / 10 ≤ fuel := by
        have := Nat.div_lt_self (Nat.pos_of_ne_zero h0)
          (by norm_num : 1 < 10)
        omega
      rw [show pyStrAux (fuel + 1) n = if n = 0 then []
          else pyStrAux fuel (n / 10) ++ [digitChar (n % 10)] from rfl,
        if_neg h0, ih (n / 10) hdiv,
        Nat.digits_def' (by norm_num : (1:Nat) < 10)
          (Nat.pos_of_ne_zero h0)]
      simp

/-- The decimal rendering of `n` as a digit-character list. -/
theorem pyStr_eq (n : Nat) :
    pyStr n = if n = 0 then ['0']
      else ((Nat.digits 10 n).map digitChar).reverse := by
  unfold pyStr
  by_cases h0 : n = 0
  · simp [h0]
  · rw [if_neg h0, if_neg h0, pyStrAux_eq_digits n n le_rfl]

/-- No character of a decimal rendering is a colon. -/
theorem pyStr_ne_colon (n : Nat) : ∀ c ∈ pyStr n, c ≠ ':' := by
  intro c hc
  rw [pyStr_eq] at hc
  split at hc
  · simp at hc
    subst hc
    decide
  · rw [List.mem_reverse] at hc
    obtain ⟨d, hd, rfl⟩ := List.mem_map.mp hc
    have hdlt : d < 10 := Nat.digits_lt_base (by norm_num) hd
    interval_cases d <;> decide

/-- Parsing undoes printing on a single digit. -/
theorem charVal_digitChar {d : Nat} (h : d < 10) :
    charVal (digitChar d) = d := by
  interval_cases d <;> decide

/-- Left fold congruence for the decimal-parsing step over digit lists. -/
theorem foldl_parse_congr : ∀ (L : List Nat) (acc : Nat),
    (∀ d ∈ L, d < 10) →
    List.foldl (fun a d => a * 10 + charVal (digitChar d)) acc L =
      List.foldl (fun a d => a * 10 + d) acc L := by
  intro L
  induction L with
  | nil => intro acc _; rfl
  | cons d L ih =>
    intro acc h
    simp only [List.foldl_cons]
    rw [charVal_digitChar (h d (by simp))]
    exact ih _ (fun x hx => h x (by simp [hx]))

/-- Folding digits most-significant-first computes the number the
little-endian digit list denotes. -/
theorem foldl_reverse_ofDigits (L : List Nat) :
    List.foldl (fun a d => a * 10 + d) 0 L.reverse = Nat.ofDigits 10 L := by
  induction L with
  | nil => rfl
  | cons d L ih =>
    rw [List.reverse_cons, List.foldl_append, ih, Nat.ofDigits_cons]
    simp only [List.foldl_cons, List.foldl_nil]
    ring

/-- Parsing a decimal rendering returns the rendered number. -/
theorem parseDigits_pyStr (n : Nat) : parseDigits (pyStr n) = n := by
  rw [pyStr_eq]
  by_cases h0 : n = 0
  · subst h0
    decide
  · rw [if_neg h0]
    unfold parseDigits
    rw [← List.map_reverse, List.foldl_map,
      foldl_parse_congr _ _ (fun d hd =>
        Nat.digits_lt_base (by norm_num) (List.mem_reverse.mp hd)),
      foldl_reverse_ofDigits]
    exact Nat.ofDigits_digits 10 n

/-- A take-while over a block of kept characters stops exactly at the first
rejected character. -/
theorem takeWhile_append_not {p : Char → Bool} (u : Str) (x : Char)
    (r : Str) (hu : ∀ c ∈ u, p c = true) (hx : p x = false) :
    (u ++ x :: r).takeWhile p = u := by
  induction u with
  | nil => simp [List.takeWhile_cons, hx]
  | cons a u ih =>
    have ha := hu a (by simp)
    simp only [List.cons_append, List.takeWhile_cons, ha, if_true]
    rw [ih (fun c hc => hu c (by simp [hc]))]

/-- The tail after the last colon of `s ++ ':' :: d` is `d` when `d` itself
holds no colon. -/
theorem afterLastColon_append (s d : Str) (hd : ∀ c ∈ d, c ≠ ':') :
    afterLastColon (s ++ ':' :: d) = d := by
  unfold afterLastColon
  rw [List.reverse_append, List.reverse_cons, List.append_assoc]
  rw [show ([':'] ++ s.reverse : Str) = ':' :: s.reverse from rfl]
  rw [takeWhile_append_not d.reverse ':' s.reverse
    (fun c hc => decide_eq_true (hd c (List.mem_reverse.mp hc)))
    (by decide), List.reverse_reverse]

/-- Structure of a command id built from timestamp text `ts` and sequence
index `i`: its trailing segment decodes to `i`, and its first eight
characters are the command id marker. -/
theorem cmdId_struct (ts : Str) (i : Nat) :
    idSeq ("command:".data ++ ts ++ ":".data ++ pyStr i) = i ∧
    ("command:".data ++ ts ++ ":".data ++ pyStr i).take 8 =
      "command:".data := by
  constructor
  · unfold idSeq
    rw [show "command:".data ++ ts ++ ":".data ++ pyStr i =
        ("command:".data ++ ts) ++ ':' :: pyStr i by
        simp [List.append_assoc],
      afterLastColon_append _ _ (pyStr_ne_colon i), parseDigits_pyStr]
  · rw [show "command:".data ++ ts ++ ":".data ++ pyStr i =
        "command:".data ++ (ts ++ (":".data ++ pyStr i)) by
        simp [List.append_assoc],
      List.take_append_eq_append_take, List.take_of_length_le (by decide),
      show 8 - ("command:".data : Str).length = 0 from rfl,
      List.take_zero, List.append_nil]

/-- Structure of a command document id: its trailing segment decodes to the
sequence index, and its first eight characters are the command id marker. -/
theorem cmdDoc_id_struct {i : Nat} {c : LogEntry} {d : Doc}
    (h : cmdDoc i c = some d) :
    idSeq d.id = i ∧ d.id.take 8 = "command:".data := by
  simp only [cmdDoc] at h
  by_cases hcmd : pyStrip c.command = []
  · rw [if_pos hcmd] at h
    exact absurd h (by simp)
  · rw [if_neg hcmd] at h
    have hd := (Option.some.inj h).symm
    subst hd
    exact cmdId_struct _ i

/-- Distinctness survives `filterMap` when related sources cannot produce
equal images. -/
theorem pairwise_ne_filterMap {α β : Type} {R : α → α → Prop}
    {f : α → Option β} {l : List α} (hl : l.Pairwise R)
    (H : ∀ a b x y, R a b → f a = some x → f b = some y → x ≠ y) :
    (l.filterMap f).Pairwise (fun x y => x ≠ y) := by
  induction hl with
  | nil => exact List.Pairwise.nil
  | @cons a l' hR hp ih =>
    rw [List.filterMap_cons]
    cases hfa : f a with
    | none => exact ih
    | some x =>
      refine List.Pairwise.cons ?_ ih
      intro y hy
      obtain ⟨b, hb, hfb⟩ := List.mem_filterMap.mp hy
      exact H a b x y (hR b hb) hfa hfb

/-- Command documents of one build have pairwise distinct ids, even when
timestamps collide: the id ends in the sequence index. -/
theorem cmdDocs_ids_nodup (cmds : List LogEntry) :
    ((cmdDocs cmds).map (fun d => d.id)).Nodup := by
  unfold cmdDocs
  rw [List.map_filterMap]
  have henum : cmds.enum.Pairwise (fun p q => p.1 < q.1) := by
    have h1 : (cmds.enum.map Prod.fst).Pairwise (· < ·) := by
      rw [List.enum_map_fst]
      exact List.pairwise_lt_range _
    exact List.pairwise_map.mp h1
  refine pairwise_ne_filterMap henum ?_
  intro p q x y hlt hx hy hxy
  obtain ⟨dp, hdp, hdpx⟩ := Option.map_eq_some'.mp hx
  obtain ⟨dq, hdq, hdqy⟩ := Option.map_eq_some'.mp hy
  have h1 := (cmdDoc_id_struct hdp).1
  have h2 := (cmdDoc_id_struct hdq).1
  rw [hdpx, hxy] at h1
  rw [hdqy] at h2
  omega

/-- The ids of the file documents are exactly the non-empty entry paths. -/
theorem fileDocs_map_id (extract : Str → Str) (entries : List MetaEntry) :
    (fileDocs extract entries).map (fun d => d.id) =
      entries.filterMap (fun e =>
        if e.path = [] then none else some e.path) := by
  unfold fileDocs
  rw [List.map_filterMap]
  congr 1
  funext e
  by_cases hp : e.path = [] <;> simp [hp]

/-- Boolean helper: a value that is not false is true. -/
theorem bool_true_of_not_false {b : Bool} (h : ¬ b = false) : b = true := by
  cases b
  · exact absurd rfl h
  · rfl

/-- Boolean helper: a value that is not true is false. -/
theorem bool_false_of_not_true {b : Bool} (h : ¬ b = true) : b = false := by
  cases b
  · rfl
  · exact absurd rfl h

/-- The default last element of an appended list comes from the second list
when it is non-empty. -/
theorem getLastD_append_right {α} (l1 l2 : List α) (d : α) (h : l2 ≠ []) :
    (l1 ++ l2).getLastD d = l2.getLastD d := by
  rw [List.getLastD_eq_getLast?, List.getLastD_eq_getLast?,
    List.getLast?_append, List.getLast?_eq_getLast l2 h, Option.or_some]

/-- Membership in crawl output decomposes into a root folder and a file
entry accepted by the per-file decision. -/
theorem mem_crawl_iff (folders : List Folder) (patterns : List Str)
    (maxKb : Nat) (r : FileRec) :
    r ∈ crawl folders patterns maxKb ↔
      ∃ fo ∈ folders, fo.isDir = true ∧ ∃ f ∈ fo.files,
        crawlFile (excludeSet patterns) (maxKb * 1024) fo f = some r := by
  unfold crawl
  rw [List.mem_flatMap]
  constructor
  · rintro ⟨fo, hfo, hr⟩
    cases hdir : fo.isDir with
    | false => simp [hdir] at hr
    | true =>
      simp only [hdir] at hr
      rw [if_neg (by simp)] at hr
      obtain ⟨f, hf, hcf⟩ := List.mem_filterMap.mp hr
      exact ⟨fo, hfo, hdir, f, hf, hcf⟩
  · rintro ⟨fo, hfo, hdir, f, hf, hcf⟩
    refine ⟨fo, hfo, ?_⟩
    simp only [hdir]
    rw [if_neg (by simp)]
    exact List.mem_filterMap.mpr ⟨f, hf, hcf⟩

/-- Everything the per-file decision guarantees about an accepted file. -/
theorem crawlFile_some_elim {excl : List Str} {maxBytes : Nat} {fo : Folder}
    {f : RawFile} {r : FileRec}
    (h : crawlFile excl maxBytes fo f = some r) :
    r = mkRecord fo f ∧ f.isFile = true ∧
    fileSuffix f ∈ INDEXABLE_EXTENSIONS ∧
    (∀ part ∈ f.parts, pyLower part ∉ excl) ∧ f.statOk = true ∧
    f.size ≤ (if fileSuffix f ∈ LARGE_FILE_EXTENSIONS
      then LARGE_FILE_MAX_KB * 1024 else maxBytes) := by
  simp only [crawlFile] at h
  split at h
  · exact absurd h (by simp)
  next hfile =>
    split at h
    · exact absurd h (by simp)
    next hsuf =>
      split at h
      · exact absurd h (by simp)
      next hexcl =>
        split at h
        · exact absurd h (by simp)
        next hstat =>
          have hparts : ∀ part ∈ f.parts, pyLower part ∉ excl := by
            intro part hp
            have hb := List.any_eq_false.mp (bool_false_of_not_true hexcl)
              part hp
            exact of_decide_eq_false (bool_false_of_not_true hb)
          by_cases hlarge : fileSuffix f ∈ LARGE_FILE_EXTENSIONS
          · rw [if_pos hlarge] at h ⊢
            split at h
            · exact absurd h (by simp)
            next hsize =>
              exact ⟨(Option.some.inj h).symm, bool_true_of_not_false hfile,
                not_not.mp hsuf, hparts, bool_true_of_not_false hstat,
                Nat.not_lt.mp hsize⟩
          · rw [if_neg hlarge] at h ⊢
            split at h
            · exact absurd h (by simp)
            next hsize =>
              exact ⟨(Option.some.inj h).symm, bool_true_of_not_false hfile,
                not_not.mp hsuf, hparts, bool_true_of_not_false hstat,
                Nat.not_lt.mp hsize⟩

/-- The per-file decision accepts a file meeting every crawl condition. -/
theorem crawlFile_eq_some_of {excl : List Str} {maxBytes : Nat}
    {fo : Folder} {f : RawFile} (hfile : f.isFile = true)
    (hsuf : fileSuffix f ∈ INDEXABLE_EXTENSIONS)
    (hexcl : f.parts.any (fun part => decide (pyLower part ∈ excl)) = false)
    (hstat : f.statOk = true)
    (hsize : f.size ≤ (if fileSuffix f ∈ LARGE_FILE_EXTENSIONS
      then LARGE_FILE_MAX_KB * 1024 else maxBytes)) :
    crawlFile excl maxBytes fo f = some (mkRecord fo f) := by
  simp only [crawlFile, hfile, hexcl, hstat]
  rw [if_neg (by simp), if_neg (not_not_intro hsuf), if_neg (by simp),
    if_neg (by simp), if_neg (Nat.not_lt.mpr hsize)]

/-- Dropping a satisfied prefix twice is the same as dropping it once. -/
theorem dropWhile_dropWhile (p : Char → Bool) (l : Str) :
    (l.dropWhile p).dropWhile p = l.dropWhile p := by
  induction l with
  | nil => rfl
  | cons a l ih =>
    by_cases h : p a = true
    · rw [List.dropWhile_cons, if_pos h]
      exact ih
    · rw [List.dropWhile_cons, if_neg h, List.dropWhile_cons, if_neg h]

/-- The head surviving a `dropWhile` fails the predicate. -/
theorem dropWhile_head_false {p : Char → Bool} {l : Str} {c : Char}
    {r : Str} (h : l.dropWhile p = c :: r) : p c = false := by
  induction l with
  | nil => simp at h
  | cons a l ih =>
    rw [List.dropWhile_cons] at h
    by_cases hp : p a = true
    · rw [if_pos hp] at h
      exact ih h
    · rw [if_neg hp] at h
      obtain ⟨rfl, -⟩ := List.cons.inj h
      exact bool_false_of_not_true hp

/-- A trailing rejected character survives any `dropWhile`. -/
theorem dropWhile_append_singleton {p : Char → Bool} {c : Char}
    (hc : p c = false) : ∀ l : Str,
    ∃ u, (l ++ [c]).dropWhile p = u ++ [c] := by
  intro l
  induction l with
  | nil => exact ⟨[], by simp [List.dropWhile_cons, hc]⟩
  | cons a l ih =>
    by_cases hp : p a = true
    · obtain ⟨u, hu⟩ := ih
      exact ⟨u, by rw [List.cons_append, List.dropWhile_cons, if_pos hp, hu]⟩
    · exact ⟨a :: l, by rw [List.cons_append, List.dropWhile_cons,
        if_neg hp]⟩

/-- Python strip is idempotent. -/
theorem pyStrip_idem (s : Str) : pyStrip (pyStrip s) = pyStrip s := by
  unfold pyStrip
  cases hy : s.dropWhile isPyWS with
  | nil => simp
  | cons c rest =>
    have hc : isPyWS c = false := dropWhile_head_false hy
    obtain ⟨u, hu⟩ := dropWhile_append_singleton hc rest.reverse
    have hkeep : (u ++ [c]).dropWhile isPyWS = u ++ [c] := by
      rw [← hu]
      exact dropWhile_dropWhile isPyWS (rest.reverse ++ [c])
    simp only [List.reverse_cons, hu, List.reverse_append,
      List.reverse_cons, List.reverse_nil, List.nil_append,
      List.singleton_append, List.reverse_reverse]
    rw [List.dropWhile_cons, if_neg (by simp [hc])]
    simp only [List.reverse_cons, List.reverse_reverse, hkeep,
      List.reverse_append, List.reverse_nil, List.nil_append,
      List.singleton_append]

/-- The zsh-prefix fix preserves strip-normal form. -/
theorem zshFix_strip_fixed {s : Str} (h : pyStrip s = s) :
    pyStrip (zshFix s) = zshFix s := by
  unfold zshFix
  by_cases hc : s.take 2 = ": ".data ∧ ':' ∈ s.drop 2
  · rw [if_pos hc]
    cases hidx : s.findIdx? (fun c => c == ';') with
    | some idx => exact pyStrip_idem _
    | none => exact h
  · rw [if_neg hc]
    exact h

/-- A normalised history line is strip-normal. -/
theorem lineNorm_strip_fixed {l c : Str} (h : lineNorm l = some c) :
    pyStrip c = c := by
  simp only [lineNorm] at h
  split at h
  · exact absurd h (by simp)
  · have hc := Option.some.inj h
    subst hc
    exact zshFix_strip_fixed (pyStrip_idem l)

/-- Dedup-loop equation: a line that normalises away is skipped. -/
theorem collectNew_cons_none {E : List Str} {l : Str} {ls : List Str}
    (h : lineNorm l = none) :
    collectNew E (l :: ls) = collectNew E ls := by
  simp [collectNew, h]

/-- Dedup-loop equation: an already-seen command is skipped. -/
theorem collectNew_cons_mem {E : List Str} {l cmd : Str} {ls : List Str}
    (h : lineNorm l = some cmd) (hm : cmd ∈ E) :
    collectNew E (l :: ls) = collectNew E ls := by
  simp [collectNew, h, hm]

/-- Dedup-loop equation: a new command is collected and added to the set. -/
theorem collectNew_cons_new {E : List Str} {l cmd : Str} {ls : List Str}
    (h : lineNorm l = some cmd) (hm : cmd ∉ E) :
    collectNew E (l :: ls) = cmd :: collectNew (cmd :: E) ls := by
  simp [collectNew, h, hm]

/-- Every command collected by the dedup loop is strip-normal. -/
theorem collectNew_strip_fixed : ∀ (lines : List Str) (E : List Str)
    (c : Str), c ∈ collectNew E lines → pyStrip c = c := by
  intro lines
  induction lines with
  | nil =>
    intro E c hc
    simp [collectNew] at hc
  | cons l ls ih =>
    intro E c hc
    cases hn : lineNorm l with
    | none =>
      rw [collectNew_cons_none hn] at hc
      exact ih E c hc
    | some cmd =>
      by_cases hmem : cmd ∈ E
      · rw [collectNew_cons_mem hn hmem] at hc
        exact ih E c hc
      · rw [collectNew_cons_new hn hmem] at hc
        rcases List.mem_cons.mp hc with rfl | hc'
        · exact lineNorm_strip_fixed hn
        · exact ih (cmd :: E) c hc'

/-- After the dedup loop runs, the seed set extended with the collected
commands covers the normalisation of every line. -/
theorem collectNew_covers : ∀ (lines : List Str) (E : List Str)
    (l c : Str), l ∈ lines → lineNorm l = some c →
    c ∈ E ++ collectNew E lines := by
  intro lines
  induction lines with
  | nil =>
    intro E l c hl
    simp at hl
  | cons x ls ih =>
    intro E l c hl hn
    rcases List.mem_cons.mp hl with rfl | hl'
    · by_cases hmem : c ∈ E
      · exact List.mem_append_left _ hmem
      · rw [collectNew_cons_new hn hmem]
        exact List.mem_append_right _ (by simp)
    · cases hx : lineNorm x with
      | none =>
        rw [collectNew_cons_none hx]
        exact ih E l c hl' hn
      | some cx =>
        by_cases hmem : cx ∈ E
        · rw [collectNew_cons_mem hx hmem]
          exact ih E l c hl' hn
        · rw [collectNew_cons_new hx hmem]
          have hin := ih (cx :: E) l c hl' hn
          rcases List.mem_append.mp hin with h1 | h1
          · rcases List.mem_cons.mp h1 with rfl | h1
            · exact List.mem_append_right _ (by simp)
            · exact List.mem_append_left _ h1
          · exact List.mem_append_right _ (by simp [h1])

/-- The dedup loop collects nothing when the seed set already covers every
line's normalisation. -/
theorem collectNew_nil_of_covered : ∀ (lines : List Str) (E : List Str),
    (∀ l ∈ lines, ∀ c, lineNorm l = some c → c ∈ E) →
    collectNew E lines = [] := by
  intro lines
  induction lines with
  | nil => intro E _; rfl
  | cons x ls ih =>
    intro E h
    cases hx : lineNorm x with
    | none =>
      rw [collectNew_cons_none hx]
      exact ih E (fun l hl => h l (by simp [hl]))
    | some cx =>
      rw [collectNew_cons_mem hx (h x (by simp) cx hx)]
      exact ih E (fun l hl => h l (by simp [hl]))

/-- Running the dedup loop over a seed set already extended with one run's
output collects nothing further. -/
theorem collectNew_saturated (E : List Str) (lines : List Str) :
    collectNew (E ++ collectNew E lines) lines = [] :=
  collectNew_nil_of_covered lines _
    (fun l hl c hn => collectNew_covers lines E l c hl hn)

/-- A second history sync directly after a first one appends nothing: the
first sync's log entries already cover every history line. -/
theorem syncNewEntries_after (w : SysWorld) :
    syncNewEntries (sync_terminal_history w) = [] := by
  have hmap : (syncNewEntries w).map (fun e => pyStrip e.command) =
      collectNew (w.todayLog.map (fun e => pyStrip e.command)) w.history := by
    unfold syncNewEntries
    rw [List.map_map]
    have hfix : ∀ c ∈ collectNew
        (w.todayLog.map (fun e => pyStrip e.command)) w.history,
        pyStrip c = c :=
      fun c hc => collectNew_strip_fixed _ _ c hc
    calc (collectNew (w.todayLog.map (fun e => pyStrip e.command))
            w.history).map (fun cmd => pyStrip cmd)
        = (collectNew (w.todayLog.map (fun e => pyStrip e.command))
            w.history).map (fun cmd => cmd) :=
          List.map_congr_left hfix
      _ = _ := List.map_id _
  show (collectNew ((w.todayLog ++ syncNewEntries w).map
      (fun e => pyStrip e.command)) w.history).map
      (fun cmd =>
        ({ type := "command".data, timestamp := w.nowIso, command := cmd,
           cwd := w.curDir } : LogEntry)) = []
  rw [List.map_append, hmap, collectNew_saturated]
  rfl

/-- Metadata normalisation preserves every entry. -/
theorem map_normalizeEntry (es : List MetaEntry) :
    es.map normalizeEntry = es := by
  induction es with
  | nil => rfl
  | cons e es ih =>
    rw [List.map_cons, ih]
    rfl

/-- The `.docx` and `.pdf` extensions are both indexable. -/
theorem large_subset_indexable {s : Str}
    (h : s ∈ LARGE_FILE_EXTENSIONS) : s ∈ INDEXABLE_EXTENSIONS := by
  rcases List.mem_pair.mp h with h | h <;> subst h <;> decide

/- ## Claim theorems -/

/-- C2: content extraction is total.  The embedding `_read_content` is a
total Lean function over the outcome world of one call, so no branch
raises; this theorem checks that every failure scenario returns the empty
string — missing file; pdfplumber timeout; corrupted PDF with pdfplumber
missing or failing and PyPDF2 failing; corrupted docx; stat failure;
oversized plain file; unreadable plain file — and that undecodable bytes
degrade to the lossy replacement decode instead of raising. -/
theorem read_content_total (w : ExtractWorld) (mc : Nat) :
    (w.pathExists = false → _read_content w mc = []) ∧
    (pyLower w.suffix = ".pdf".data → w.pathExists = true →
      w.plumberImport = true → w.plumberExc = false →
      w.plumberTimeout = true → _read_content w mc = []) ∧
    (pyLower w.suffix = ".pdf".data → w.pathExists = true →
      w.plumberImport = false → w.pypdfReader = .error () →
      _read_content w mc = []) ∧
    (∀ m, pyLower w.suffix = ".pdf".data → w.pathExists = true →
      w.plumberImport = true → w.plumberExc = false →
      w.plumberTimeout = false → w.plumberOpen = .error m →
      w.pypdfReader = .error () → _read_content w mc = []) ∧
    (pyLower w.suffix = ".docx".data → w.pathExists = true →
      w.docxOutcome = .error () → _read_content w mc = []) ∧
    (pyLower w.suffix ≠ ".pdf".data → pyLower w.suffix ≠ ".docx".data →
      w.pathExists = true → w.statSize = .error () →
      _read_content w mc = []) ∧
    (∀ n, pyLower w.suffix ≠ ".pdf".data → pyLower w.suffix ≠ ".docx".data →
      w.pathExists = true → w.statSize = .ok n → n > mc * 2 →
      _read_content w mc = []) ∧
    (∀ n, pyLower w.suffix ≠ ".pdf".data → pyLower w.suffix ≠ ".docx".data →
      w.pathExists = true → w.statSize = .ok n → ¬ n > mc * 2 →
      w.readOk = false → _read_content w mc = []) ∧
    (∀ n, pyLower w.suffix ≠ ".pdf".data → pyLower w.suffix ≠ ".docx".data →
      w.pathExists = true → w.statSize = .ok n → ¬ n > mc * 2 →
      w.readOk = true → (∀ e, w.decode e = .error ()) →
      _read_content w mc = w.decodeReplace) := by
  refine ⟨?_, ?_, ?_, ?_, ?_, ?_, ?_, ?_, ?_⟩
  · intro h
    simp [_read_content, h]
  · intro hs hex himp hexc htime
    simp [_read_content, hs, hex, pdfBranch, himp, hexc, htime]
  · intro hs hex himp hrd
    simp [_read_content, hs, hex, pdfBranch, himp, pypdfFallback, hrd]
  · intro m hs hex himp hexc htime hopen hrd
    simp [_read_content, hs, hex, pdfBranch, himp, hexc, htime, hopen,
      pypdfFallback, hrd]
  · intro hs hex hdocx
    simp [_read_content, hs, hex, docxBranch, hdocx]
  · intro hpdf hdocx hex hstat
    simp [_read_content, hpdf, hdocx, hex, textBranch, hstat]
  · intro n hpdf hdocx hex hstat hsize
    simp [_read_content, hpdf, hdocx, hex, textBranch, hstat, hsize]
  · intro n hpdf hdocx hex hstat hsize hread
    simp [_read_content, hpdf, hdocx, hex, textBranch, hstat, hsize, hread]
  · intro n hpdf hdocx hex hstat hsize hread hdec
    have htry := tryEncodings_of_all_error w hdec encodingList
    cases hci : w.chardetImport with
    | false =>
      simp [_read_content, hpdf, hdocx, hex, textBranch, hstat, hsize, hread,
        hci, htry]
    | true =>
      cases hch : w.chardetConfHigh with
      | false =>
        simp [_read_content, hpdf, hdocx, hex, textBranch, hstat, hsize,
          hread, hci, hch, htry]
      | true =>
        cases henc : w.chardetEncoding with
        | none =>
          simp [_read_content, hpdf, hdocx, hex, textBranch, hstat, hsize,
            hread, hci, hch, henc, htry]
        | some enc =>
          by_cases he : enc = []
          · simp [_read_content, hpdf, hdocx, hex, textBranch, hstat, hsize,
              hread, hci, hch, henc, he, htry]
          · simp [_read_content, hpdf, hdocx, hex, textBranch, hstat, hsize,
              hread, hci, hch, henc, he, hdec enc, htry]

/-- C2 witness: the all-failing world for a missing file extracts the empty
string. -/
theorem read_content_total_witness : _read_content exFailWorld 500000 = [] :=
  (read_content_total exFailWorld 500000).1 rfl

/-- C9: `search_index` never raises; a query that is empty or whitespace
only returns the empty list, and a query the grammar cannot parse also
returns the empty list (the embedding is a total function, so the parse
failure is an `Except.error` outcome, not an exception). -/
theorem search_degrades_gracefully (w : SearchWorld) (q : Str) :
    ((∀ c ∈ q, isPyWS c) → search_index w q = []) ∧
    (w.parse (pyStrip q) = .error () → search_index w q = []) := by
  constructor
  · intro h
    simp [search_index, pyStrip_eq_nil_of_all_ws q h]
  · intro h
    by_cases hq : pyStrip q = []
    · simp [search_index, hq]
    · cases hix : w.ixExists with
      | false => simp [search_index, hq, hix]
      | true => simp [search_index, hq, hix, h]

/-- C9 witness: a whitespace query and an unparsable query both return the
empty list on a world whose parser always fails. -/
theorem search_degrades_gracefully_witness :
    search_index parseErrWorld ("  ".data) = [] ∧
    search_index parseErrWorld ("abc".data) = [] :=
  ⟨(search_degrades_gracefully parseErrWorld ("  ".data)).1 (by decide),
   (search_degrades_gracefully parseErrWorld ("abc".data)).2 rfl⟩

set_option maxRecDepth 10000 in
/-- C4 counterexample: a stored content of 201 characters beginning with a
space is returned by search with snippet `replicate 199 'a' ++ "..."`, not
with the first 200 characters (newlines to spaces) followed by the marker —
the code also strips surrounding whitespace, which the claim omits. -/
theorem snippet_exact_cex :
    snipContent.length > 200 ∧
    (search_index snipWorld ['a']).map (fun r => r.snippet) =
      [List.replicate 199 'a' ++ "...".data] ∧
    ¬ (List.replicate 199 'a' ++ "...".data =
        ((snipContent.take 200).map (fun c => if c = '\n' then ' ' else c))
          ++ "...".data) := by
  refine ⟨by decide, by decide, by decide⟩

/-- C4 amended: every search result's snippet comes from a returned hit;
when the stored content exceeds 200 characters the snippet is the first 200
characters with newlines replaced by spaces and surrounding whitespace
stripped, followed by the truncation marker; when the content is at most
200 characters no marker is appended (the snippet is the whole content,
newlines to spaces, stripped). -/
theorem snippet_contract_amended (w : SearchWorld) (q : Str)
    (r : SearchResult) (hr : r ∈ search_index w q) :
    ∃ h ∈ w.hits, r = formatHit h ∧
      ((h.content.getD []).length > 200 →
        r.snippet =
          pyStrip (((h.content.getD []).take 200).map
            (fun c => if c = '\n' then ' ' else c)) ++ "...".data) ∧
      ((h.content.getD []).length ≤ 200 →
        r.snippet =
          pyStrip ((h.content.getD []).map
            (fun c => if c = '\n' then ' ' else c))) := by
  unfold search_index at hr
  split at hr
  · exact absurd hr (List.not_mem_nil r)
  · split at hr
    · exact absurd hr (List.not_mem_nil r)
    · split at hr
      · exact absurd hr (List.not_mem_nil r)
      · obtain ⟨h, hh, rfl⟩ := List.mem_map.mp hr
        refine ⟨h, hh, rfl, ?_, ?_⟩
        · intro hlen
          simp only [formatHit]
          rw [if_pos hlen]
        · intro hlen
          simp only [formatHit]
          rw [if_neg (by omega), List.take_of_length_le hlen]

/-- C4 amended witness: the short command hit keeps its full stripped
content as snippet, with no marker. -/
theorem snippet_contract_amended_witness :
    ∃ h ∈ okWorld.hits, formatHit okHit = formatHit h ∧
      ((h.content.getD []).length > 200 →
        (formatHit okHit).snippet =
          pyStrip (((h.content.getD []).take 200).map
            (fun c => if c = '\n' then ' ' else c)) ++ "...".data) ∧
      ((h.content.getD []).length ≤ 200 →
        (formatHit okHit).snippet =
          pyStrip ((h.content.getD []).map
            (fun c => if c = '\n' then ' ' else c))) :=
  snippet_contract_amended okWorld ['x'] (formatHit okHit) (by decide)

/-- C6: in any build, the file documents are exactly one File-kind document
per entry with a non-empty path, with id the entry's path and content the
extracted text, or the single-space placeholder when extraction yields the
empty string; in particular the content field is never empty and no entry
is dropped because extraction failed. -/
theorem build_file_docs_exact (extract : Str → Str)
    (entries : List MetaEntry) (cmds : List LogEntry) :
    build_index extract entries cmds =
      (entries.filter (fun e => !e.path.isEmpty)).map (fun e =>
        { id := e.path, result_type := "file".data,
          content := if extract e.path = [] then " ".data
            else extract e.path }) ++ cmdDocs cmds ∧
    ∀ d ∈ fileDocs extract entries, d.content ≠ [] := by
  constructor
  · unfold build_index
    rw [fileDocs_eq_filter_map]
  · intro d hd
    obtain ⟨e, he, heq⟩ := List.mem_filterMap.mp hd
    by_cases hp : e.path = []
    · simp [hp] at heq
    · rw [if_neg hp] at heq
      obtain rfl := Option.some.inj heq
      by_cases hx : extract e.path = []
      · simp [hx]
      · simp [hx]

/-- C6 witness: the placeholder document built for path `a` under the
always-empty extractor has non-empty content. -/
theorem build_file_docs_exact_witness :
    ({ id := ['a'], result_type := "file".data,
       content := " ".data } : Doc).content ≠ [] :=
  (build_file_docs_exact emptyExtract uEntries []).2 _ (by decide)

/-- C10: a command entry at position `i` with a non-blank command and a
missing or empty timestamp is indexed with id `command:<i>:<i>`, the
sequence index substituting for the timestamp. -/
theorem command_empty_timestamp (extract : Str → Str)
    (entries : List MetaEntry) (cmds : List LogEntry) (i : Nat)
    (c : LogEntry) (hget : cmds.get? i = some c)
    (hcmd : pyStrip c.command ≠ []) (hts : c.timestamp = []) :
    ({ id := "command:".data ++ pyStr i ++ ":".data ++ pyStr i,
       result_type := "command".data,
       content := pyStrip c.command } : Doc) ∈
      build_index extract entries cmds := by
  have henum : (i, c) ∈ cmds.enum := List.mem_enum_iff_get?.mpr hget
  have hdoc : cmdDoc i c =
      some { id := "command:".data ++ pyStr i ++ ":".data ++ pyStr i,
             result_type := "command".data,
             content := pyStrip c.command } := by
    simp [cmdDoc, hcmd, hts]
  unfold build_index
  refine List.mem_append_right _ ?_
  unfold cmdDocs
  exact List.mem_filterMap.mpr ⟨(i, c), henum, hdoc⟩

/-- C10 witness: a command entry with empty timestamp at position 0 gets id
`command:0:0`. -/
theorem command_empty_timestamp_witness :
    ({ id := "command:".data ++ pyStr 0 ++ ":".data ++ pyStr 0,
       result_type := "command".data,
       content := pyStrip ("ls".data) } : Doc) ∈
      build_index emptyExtract [] noTsCmds :=
  command_empty_timestamp emptyExtract [] noTsCmds 0
    { type := "command".data, timestamp := [], command := "ls".data,
      cwd := [] } rfl (by decide) rfl

/-- C5: a crawled file whose suffix is not a document format has size at
most `max_file_size_kb * 1024` bytes; and a document-format (`.docx` /
`.pdf`) file of any size up to the 10 MB large-file ceiling that meets the
other crawl conditions is yielded, even above the ordinary limit. -/
theorem crawl_size_limit (folders : List Folder) (patterns : List Str)
    (maxKb : Nat) :
    (∀ r ∈ crawl folders patterns maxKb,
      pyLower (pySuffix (r.pathParts.getLastD [])) ∉ LARGE_FILE_EXTENSIONS →
      r.size ≤ maxKb * 1024) ∧
    (∀ fo ∈ folders, fo.isDir = true → ∀ f ∈ fo.files, f.isFile = true →
      f.statOk = true → fileSuffix f ∈ LARGE_FILE_EXTENSIONS →
      (f.parts.any fun part =>
        decide (pyLower part ∈ excludeSet patterns)) = false →
      f.size ≤ LARGE_FILE_MAX_KB * 1024 →
      mkRecord fo f ∈ crawl folders patterns maxKb) := by
  constructor
  · intro r hr hsuf
    obtain ⟨fo, hfo, hdir, f, hf, hcf⟩ := (mem_crawl_iff _ _ _ _).mp hr
    obtain ⟨hrec, _, hind, _, _, hsize⟩ := crawlFile_some_elim hcf
    have hne : f.parts ≠ [] := by
      intro hnil
      rw [show fileSuffix f = [] by simp [fileSuffix, fileName, hnil,
        pySuffix, pyLower]] at hind
      exact absurd hind (by decide)
    have hlast : r.pathParts.getLastD [] = f.parts.getLastD [] := by
      rw [hrec]
      exact getLastD_append_right fo.rootParts f.parts [] hne
    rw [hlast] at hsuf
    have hsuf' : fileSuffix f ∉ LARGE_FILE_EXTENSIONS := hsuf
    rw [if_neg hsuf'] at hsize
    rw [hrec]
    exact hsize
  · intro fo hfo hdir f hf hfile hstat hlarge hexcl hsize
    rw [mem_crawl_iff]
    refine ⟨fo, hfo, hdir, f, hf, ?_⟩
    exact crawlFile_eq_some_of hfile (large_subset_indexable hlarge) hexcl
      hstat (by rw [if_pos hlarge]; exact hsize)

/-- C5 witness: under a 1 KB limit the crawled 10-byte text file respects
the ordinary bound, and the 2000-byte PDF (over the ordinary limit, under
10 MB) is yielded. -/
theorem crawl_size_limit_witness :
    (mkRecord homeFolder smallTxt).size ≤ 1 * 1024 ∧
    mkRecord homeFolder bigPdf ∈ crawl [homeFolder] [] 1 :=
  ⟨(crawl_size_limit [homeFolder] [] 1).1 (mkRecord homeFolder smallTxt)
      (by decide) (by decide),
   (crawl_size_limit [homeFolder] [] 1).2 homeFolder (by decide) rfl bigPdf
      (by decide) rfl rfl (by decide) (by decide) (by decide)⟩

/-- C3 counterexample: with a root folder itself named `node_modules` and
that same exclude pattern, the file below it is still yielded, and its
resolved path contains a component matching the pattern — the code checks
only components below the root, so the claim over all components of the
yielded path fails. -/
theorem crawl_exclusion_cex :
    ¬ (∀ r ∈ crawl [exclRoot] ["node_modules".data] 1,
        ∀ part ∈ r.pathParts,
          pyLower part ∉ excludeSet ["node_modules".data]) := by
  decide

/-- C3 amended: every crawled record comes from a file under some root
folder, and no component of its path below that root (the components the
walk traverses) matches an exclude pattern case-insensitively; components
of the configured root path itself are not checked. -/
theorem crawl_exclusion_amended (folders : List Folder) (patterns : List Str)
    (maxKb : Nat) :
    ∀ r ∈ crawl folders patterns maxKb, ∃ fo ∈ folders, ∃ f ∈ fo.files,
      r = mkRecord fo f ∧
      ∀ part ∈ f.parts, pyLower part ∉ excludeSet patterns := by
  intro r hr
  obtain ⟨fo, hfo, _, f, hf, hcf⟩ := (mem_crawl_iff _ _ _ _).mp hr
  obtain ⟨hrec, _, _, hexcl, _, _⟩ := crawlFile_some_elim hcf
  exact ⟨fo, hfo, f, hf, hrec, hexcl⟩

/-- C3 amended witness: the crawled text file under `home` has no component
below the root matching the exclude pattern `skip`. -/
theorem crawl_exclusion_amended_witness :
    ∃ fo ∈ [homeFolder], ∃ f ∈ fo.files,
      mkRecord homeFolder smallTxt = mkRecord fo f ∧
      ∀ part ∈ f.parts, pyLower part ∉ excludeSet ["skip".data] :=
  crawl_exclusion_amended [homeFolder] ["skip".data] 1
    (mkRecord homeFolder smallTxt) (by decide)

/-- C1 counterexample: two file entries with the same path produce two
documents with the same id, and a file whose path has the shape of a
command id collides with a command document even under distinct paths —
the claim fails for inputs with duplicate paths. -/
theorem build_unique_cex :
    ¬ (((build_index emptyExtract dupEntries []).map
        (fun d => d.id)).Nodup) ∧
    ¬ (((build_index emptyExtract clashEntries clashCmds).map
        (fun d => d.id)).Nodup) := by
  exact ⟨by decide, by decide⟩

/-- C1 amended: after `build_index`, if the non-empty file paths are
pairwise distinct and no file path begins with the eight-character command
id marker, then no two documents share an id; and independently of any
hypothesis, command documents always receive pairwise distinct ids — two
command entries with colliding timestamps are separated by the sequence
index embedded at the tail of the id. -/
theorem build_unique_ids (extract : Str → Str) (entries : List MetaEntry)
    (cmds : List LogEntry)
    (h1 : (entries.filterMap (fun e =>
      if e.path = [] then none else some e.path)).Nodup)
    (h2 : ∀ e ∈ entries, e.path.take 8 ≠ "command:".data) :
    ((build_index extract entries cmds).map (fun d => d.id)).Nodup ∧
    ((cmdDocs cmds).map (fun d => d.id)).Nodup := by
  refine ⟨?_, cmdDocs_ids_nodup cmds⟩
  unfold build_index
  rw [List.map_append, List.nodup_append]
  refine ⟨by rw [fileDocs_map_id]; exact h1, cmdDocs_ids_nodup cmds, ?_⟩
  intro x hx hx2
  rw [fileDocs_map_id] at hx
  obtain ⟨e, he, hfe⟩ := List.mem_filterMap.mp hx
  have hxpath : e.path = x := by
    by_cases hp : e.path = []
    · rw [if_pos hp] at hfe
      exact absurd hfe (by simp)
    · rw [if_neg hp] at hfe
      exact Option.some.inj hfe
  obtain ⟨d, hd, hdx⟩ := List.mem_map.mp hx2
  obtain ⟨p, hp, hcd⟩ := List.mem_filterMap.mp hd
  have h8 := (cmdDoc_id_struct hcd).2
  refine h2 e he ?_
  rw [hxpath, ← hdx, h8]

/-- C1 amended witness: with two distinct file paths and two command
entries sharing a timestamp, every id in the build is distinct. -/
theorem build_unique_ids_witness :
    ((build_index emptyExtract uEntries uCmds).map
      (fun d => d.id)).Nodup ∧
    ((cmdDocs uCmds).map (fun d => d.id)).Nodup :=
  build_unique_ids emptyExtract uEntries uCmds (by decide) (by decide)

/-- C7: with the filesystem and activity logs unchanged since a prior
`full_index`, rebuilding from the persisted metadata snapshot produces the
same document count: the snapshot normalisation preserves every path, and
the deleted index store plays no role since every build recreates it from
scratch. -/
theorem rebuild_consistency (w : SysWorld) (cfg : Config) :
    (rebuild_index (full_index w cfg).2).length =
      (full_index w cfg).1.length := by
  unfold rebuild_index full_index
  simp only [map_normalizeEntry]

/-- C8: with the filesystem, shell history and external activity logs
unchanged between two consecutive `full_index` calls, the second call
builds the identical document list — the first sync already logged every
history command, so the second sync appends nothing — hence the same
document count and identical results for any fixed query evaluated over
the built index. -/
theorem full_index_idempotent (w : SysWorld) (cfg : Config) :
    (full_index (full_index w cfg).2 cfg).1 = (full_index w cfg).1 ∧
    (full_index (full_index w cfg).2 cfg).1.length =
      (full_index w cfg).1.length ∧
    ∀ (q : Str) (engine : List Doc → Str → List SearchResult),
      engine (full_index (full_index w cfg).2 cfg).1 q =
        engine (full_index w cfg).1 q := by
  have hdocs : (full_index (full_index w cfg).2 cfg).1 =
      (full_index w cfg).1 := by
    cases hlog : cfg.logTerminalHistory with
    | false => simp only [full_index, hlog, Bool.false_eq_true, if_false]
    | true =>
      have hafter2 : syncNewEntries
          { folders := w.folders, history := w.history,
            todayLog := w.todayLog ++ syncNewEntries w,
            otherLogs := w.otherLogs,
            metadata := List.map normalizeEntry (List.map entryOfRec
              (crawl w.folders cfg.excludePatterns cfg.maxFileSizeKb)),
            extract := w.extract, nowIso := w.nowIso,
            curDir := w.curDir } = [] := syncNewEntries_after w
      simp only [full_index, hlog, if_true, sync_terminal_history,
        hafter2, List.append_nil]
  exact ⟨hdocs, by rw [hdocs], fun q engine => by rw [hdocs]⟩

end LoadsSearch
